import Mathlib

/-!
Verification of the command-execution pipeline of the xero-toolkit
repository (`src/ui/command_execution/{types,executor,context,mod}.rs`,
`src/utils.rs`).

The pipeline is embedded shallowly:

* the data model (`CommandType`, `CommandStep`, `CommandResult`,
  `TaskStatus`) is transcribed from `types.rs`;
* `resolve_command` and `detect_aur_helper` are transcribed from
  `executor.rs` / `utils.rs`, with the filesystem probe
  `is_executable_in_path` and the configured helper preference
  `aur_helper()` abstracted into an environment record `Env`;
* the asynchronous executor (`execute_commands_sequence`,
  `RunningCommandContext::try_finalize`, the GTK cancel/close handlers and
  `finalize_execution`) is embedded as a state machine `ExecState` driven
  by an explicit event schedule (`StepEvent`); every observable action
  (UI update, spawn, completion-callback invocation) is recorded in an
  effect trace;
* the per-step finalization logic of `RunningCommandContext` is embedded
  a second time at the level of a single context object (`RCContext`),
  so that delivery of duplicate signals to an already-finalized context
  can be analysed.
-/

namespace XeroToolkit

/-! ## Data model (`types.rs`) -/

/-- `CommandType` from `types.rs`: how the command must be invoked. -/
inductive CommandType
  | Normal
  | Privileged
  | Aur
deriving DecidableEq

/-- `TaskStatus` from `types.rs`: per-step UI state. -/
inductive TaskStatus
  | Pending
  | Running
  | Success
  | Failed
deriving DecidableEq

/-- `CommandStep` from `types.rs`. -/
structure CommandStep where
  command_type : CommandType
  command : String
  args : List String
  friendly_name : String
deriving DecidableEq

/-- `CommandResult` from `types.rs`: outcome of one step.  The exit code
reported by `gio::Subprocess::exit_status` is an `i32`, embedded as `Int`. -/
inductive CommandResult
  | Success
  | Failure (exit_code : Option Int)
deriving DecidableEq

/-! ## Environment

The executor interacts with three external facts that the code reads but
does not compute: the configured AUR helper preference, which binaries are
executable in `PATH`, and whether `gio::Subprocess::newv` succeeds for a
given step.  They are collected in an environment record. -/

/-- External environment of one run. `isExec` abstracts
`utils::is_executable_in_path`; `spawnOk i` abstracts whether
`gio::Subprocess::newv` succeeds when step `i` is spawned; `hasCallback`
records whether an `on_complete` callback was supplied. -/
structure Env where
  aurHelperPref : Option String
  isExec : String → Bool
  spawnOk : Nat → Bool
  hasCallback : Bool

/-- Modelled from the spec: the crate-root accessor `aur_helper()` used by
`resolve_command` is not among the provided source files (only its caller
is).  The spec describes it as a configured helper preference lookup,
`preferredHelper() -> Option<name>`; it is modelled as an opaque field of
the environment. -/
def aur_helper (env : Env) : Option String :=
  env.aurHelperPref

/-- The fixed probe order `PRIORITY` of `utils::detect_aur_helper`. -/
def PRIORITY : List String := ["paru", "yay"]

/-- `utils::detect_aur_helper`: return the first helper of `PRIORITY` that
is executable in `PATH` (abstracted by `isExec`), or `none`. -/
def detect_aur_helper (isExec : String → Bool) : Option String :=
  PRIORITY.find? isExec

/-- `executor::resolve_command`: map a step to a concrete
(program, argument list) pair, or an error message. -/
def resolve_command (env : Env) (command : CommandStep) :
    Except String (String × List String) :=
  match command.command_type with
  | CommandType.Normal => Except.ok (command.command, command.args)
  | CommandType.Privileged =>
      Except.ok ("pkexec", command.command :: command.args)
  | CommandType.Aur =>
      match (aur_helper env).orElse (fun _ => detect_aur_helper env.isExec) with
      | none => Except.error "AUR helper not initialized (paru or yay required)."
      | some helper => Except.ok (helper, "--sudo" :: "pkexec" :: command.args)

/-! ## Observable effects and run state -/

/-- One observable action of the executor: a call into the progress
surface, a callback invocation, or a process-level action. -/
inductive Effect
  | progress (current total : Nat)
  | setTitle (t : String)
  | output (text : String) (isError : Bool)
  | statusUpdate (index : Nat) (status : TaskStatus)
  | showCompletion (success : Bool) (message : String)
  | callbackInvoked (b : Bool)
  | spawned (index : Nat) (program : String) (args : List String)
  | disableCancel
  | forceExit
  | windowClose
deriving DecidableEq

/-- The per-step state of `RunningCommandContext` that the stream readers
and the wait handler mutate: the two stream-finished flags and the
recorded exit result. -/
structure StepCtx where
  index : Nat
  stdout_done : Bool
  stderr_done : Bool
  exit_result : Option CommandResult
deriving DecidableEq

/-- Where control currently sits: before any dispatch, inside a step
(process spawned, context live), or after a terminal outcome. -/
inductive Phase
  | idle
  | inStep (ctx : StepCtx)
  | finished
deriving DecidableEq

/-- The state shared across the asynchronous callbacks of one run:
the command list (`Rc<Vec<CommandStep>>`), the shared cancellation flag,
the process-wide `ACTION_RUNNING` flag, the single-slot current-process
cell (abstracted to whether it is occupied), the control phase, and the
trace of effects emitted so far. -/
structure ExecState where
  commands : List CommandStep
  cancelled : Bool
  actionRunning : Bool
  currentProcess : Bool
  phase : Phase
  trace : List Effect
deriving DecidableEq

/-- `RunningCommandContext::new`: the fresh per-step context created at
spawn time — both stream flags false, no exit result recorded. -/
def freshCtx (index : Nat) : StepCtx :=
  { index := index, stdout_done := false, stderr_done := false,
    exit_result := none }

/-- Record one observable effect. -/
def emit (st : ExecState) (e : Effect) : ExecState :=
  { st with trace := st.trace ++ [e] }

/-- `if let Some(callback) = on_complete { callback(b) }`. -/
def invokeCallback (env : Env) (st : ExecState) (b : Bool) : ExecState :=
  if env.hasCallback then emit st (Effect.callbackInvoked b) else st

/-- `executor::finalize_execution`: clear the global `ACTION_RUNNING`
flag, show the completion state on the surface, and append a matching
log line. -/
def finalize_execution (st : ExecState) (success : Bool) (message : String) :
    ExecState :=
  let st := { st with actionRunning := false }
  let st := emit st (Effect.showCompletion success message)
  if success then
    emit st (Effect.output ("\n✓ " ++ message ++ "\n") false)
  else
    emit st (Effect.output ("\n✗ " ++ message ++ "\n") true)

/-- `executor::execute_commands_sequence`: dispatch step `index`.
Checks the cancellation flag, then whether the index is past the end
(the source tests `index >= commands.len()`; here the branches are given
in dependent-if form), then resolves and spawns the step's command.
The function returns right after spawning: the spawned step's three
asynchronous signals are delivered later as `StepEvent`s. -/
def execute_commands_sequence (env : Env) (st : ExecState) (index : Nat) :
    ExecState :=
  if st.cancelled then
    let st := finalize_execution st false "Operation cancelled"
    { invokeCallback env st false with phase := Phase.finished }
  else if h : index < st.commands.length then
    let cmd := st.commands[index]
    let total := st.commands.length
    let st := emit st (Effect.progress (index + 1) total)
    let st := emit st (Effect.setTitle cmd.friendly_name)
    let st := emit st (Effect.output
      ("\n=== Step " ++ toString (index + 1) ++ "/" ++ toString total ++ ": "
        ++ cmd.friendly_name ++ " ===\n") false)
    match resolve_command env cmd with
    | Except.error err =>
        let st := emit st (Effect.output ("✗ " ++ err ++ "\n") true)
        let st := finalize_execution st false "Failed to prepare command"
        { invokeCallback env st false with phase := Phase.finished }
    | Except.ok (full_command, full_args) =>
        if env.spawnOk index then
          let st := { st with currentProcess := true }
          let st := emit st (Effect.spawned index full_command full_args)
          { st with phase := Phase.inStep (freshCtx index) }
        else
          let st := emit st (Effect.output "✗ Failed to start command\n" true)
          let st := finalize_execution st false "Failed to start operation"
          { invokeCallback env st false with phase := Phase.finished }
  else
    let st := finalize_execution st true "All operations completed successfully!"
    { invokeCallback env st true with phase := Phase.finished }

/-- `RunningCommandContext::try_finalize` acting on the run state: wait
for both stream flags and a recorded exit result, then take the result,
clear the current-process slot, and either stop (cancelled), advance to
the next step (success), or report failure. -/
def try_finalize (env : Env) (st : ExecState) (ctx : StepCtx) : ExecState :=
  if ctx.stdout_done && ctx.stderr_done then
    match ctx.exit_result with
    | none => { st with phase := Phase.inStep ctx }
    | some result =>
        let st := { st with currentProcess := false,
                            phase := Phase.inStep ({ ctx with exit_result := none }) }
        if st.cancelled then
          let st := finalize_execution st false "Operation cancelled"
          { invokeCallback env st false with phase := Phase.finished }
        else
          match result with
          | CommandResult.Success =>
              let st := emit st (Effect.statusUpdate ctx.index TaskStatus.Success)
              let st := emit st (Effect.output "✓ Step completed successfully\n" false)
              execute_commands_sequence env st (ctx.index + 1)
          | CommandResult.Failure exit_code =>
              let st := emit st (Effect.statusUpdate ctx.index TaskStatus.Failed)
              let st :=
                match exit_code with
                | some code => emit st (Effect.output
                    ("✗ Command failed with exit code: " ++ toString code ++ "\n") true)
                | none => st
              let st := finalize_execution st false
                ("Operation failed at step " ++ toString (ctx.index + 1)
                  ++ " of " ++ toString st.commands.length)
              { invokeCallback env st false with phase := Phase.finished }
  else
    { st with phase := Phase.inStep ctx }

/-- The asynchronous events of one run: the two stream-EOF (or
stream-error) notifications and the wait completion of the current step's
process, and a click of the surface's cancel button. -/
inductive StepEvent
  | stdoutDone
  | stderrDone
  | exitResult (r : CommandResult)
  | cancelClicked
deriving DecidableEq

/-- The cancel-button handler from `run_commands_with_progress`: set the
shared flag, log, disable the cancel control, and force-exit the live
process if one is stored. -/
def cancel_clicked (st : ExecState) : ExecState :=
  let st := { st with cancelled := true }
  let st := emit st (Effect.output "\n[Cancelled by user]\n" true)
  let st := emit st Effect.disableCancel
  if st.currentProcess then emit st Effect.forceExit else st

/-- Deliver one asynchronous event.  The three per-step signals reach the
live context via `mark_stream_done` / `set_exit_result`, each of which
updates its field and then calls `try_finalize`. -/
def handleEvent (env : Env) (st : ExecState) (e : StepEvent) : ExecState :=
  match e with
  | StepEvent.cancelClicked => cancel_clicked st
  | StepEvent.stdoutDone =>
      match st.phase with
      | Phase.inStep ctx => try_finalize env st { ctx with stdout_done := true }
      | _ => st
  | StepEvent.stderrDone =>
      match st.phase with
      | Phase.inStep ctx => try_finalize env st { ctx with stderr_done := true }
      | _ => st
  | StepEvent.exitResult r =>
      match st.phase with
      | Phase.inStep ctx => try_finalize env st { ctx with exit_result := some r }
      | _ => st

/-- Run a schedule of asynchronous events on the state. -/
def runEvents (env : Env) (st : ExecState) (es : List StepEvent) : ExecState :=
  es.foldl (handleEvent env) st

/-- The run state freshly set up by `run_commands_with_progress` just
before the first dispatch: flag stored true, nothing cancelled, empty
process slot. -/
def initState (commands : List CommandStep) : ExecState :=
  { commands := commands, cancelled := false, actionRunning := true,
    currentProcess := false, phase := Phase.idle, trace := [] }

/-- Outcome of calling the top-level entry point. -/
inductive RunStart
  | rejectedEmpty
  | rejectedRunning
  | started (st : ExecState)
deriving DecidableEq

/-- `run_commands_with_progress` (mod.rs): reject an empty command list,
reject if `ACTION_RUNNING` is already set, otherwise store the flag,
build the dialog, and dispatch step 0.  `action_running` is the value of
the global flag at entry. -/
def run_commands_with_progress (env : Env) (action_running : Bool)
    (commands : List CommandStep) : RunStart :=
  if commands.isEmpty then RunStart.rejectedEmpty
  else if action_running then RunStart.rejectedRunning
  else RunStart.started (execute_commands_sequence env (initState commands) 0)

/-- The window `close_request` handler from `run_commands_with_progress`:
clear `ACTION_RUNNING`, force-exit a stored live process, and invoke the
completion callback with `false`. -/
def close_request_handler (env : Env) (st : ExecState) : ExecState :=
  let st := { st with actionRunning := false }
  let st := if st.currentProcess then emit st Effect.forceExit else st
  invokeCallback env st false

/-- The close-button `clicked` handler from `run_commands_with_progress`:
call `window.close()` — which delivers the `close-request` signal to the
connected handler and closes the window — then invoke the completion
callback with `true`. -/
def close_button_clicked (env : Env) (st : ExecState) : ExecState :=
  let st := close_request_handler env st
  let st := emit st Effect.windowClose
  invokeCallback env st true

/-! ## The per-step context object (`RunningCommandContext`)

A second embedding of `try_finalize`, at the level of one context object,
used to analyse what happens when finalize-triggering signals are
delivered to a context that has already finalized.  The action the
completed finalize performs on the rest of the run is reified as a
`FinalizeAction` value. -/

/-- The mutable fields of one `RunningCommandContext`. -/
structure RCContext where
  index : Nat
  stdout_done : Bool
  stderr_done : Bool
  exit_result : Option CommandResult
deriving DecidableEq

/-- What a completed run of `try_finalize` does: nothing (`noop`, the
guard returned early), stop as cancelled, advance to the next index, or
report a step failure. -/
inductive FinalizeAction
  | noop
  | cancelledStop
  | advance (next_index : Nat)
  | fail (exit_code : Option Int) (message : String)
deriving DecidableEq

/-- `RunningCommandContext::try_finalize` on one context object:
return early unless both stream flags are set and an exit result is
recorded; otherwise take the exit result and act on it. -/
def RCContext.try_finalize (cancelled : Bool) (total : Nat) (c : RCContext) :
    RCContext × FinalizeAction :=
  if c.stdout_done && c.stderr_done then
    match c.exit_result with
    | none => (c, FinalizeAction.noop)
    | some result =>
        let c2 : RCContext := { c with exit_result := none }
        if cancelled then (c2, FinalizeAction.cancelledStop)
        else
          match result with
          | CommandResult.Success => (c2, FinalizeAction.advance (c2.index + 1))
          | CommandResult.Failure exit_code =>
              (c2, FinalizeAction.fail exit_code
                ("Operation failed at step " ++ toString (c2.index + 1)
                  ++ " of " ++ toString total))
  else (c, FinalizeAction.noop)

/-- `RunningCommandContext::mark_stream_done`: set the stream's flag and
attempt finalization. -/
def RCContext.mark_stream_done (cancelled : Bool) (total : Nat)
    (c : RCContext) (isErrStream : Bool) : RCContext × FinalizeAction :=
  RCContext.try_finalize cancelled total
    (if isErrStream then { c with stderr_done := true }
     else { c with stdout_done := true })

/-- `RunningCommandContext::set_exit_result`: record the exit result and
attempt finalization. -/
def RCContext.set_exit_result (cancelled : Bool) (total : Nat)
    (c : RCContext) (result : CommandResult) : RCContext × FinalizeAction :=
  RCContext.try_finalize cancelled total { c with exit_result := some result }

/-- The finalize-triggering events a context object can receive. -/
inductive CtxEvent
  | streamDone (isErrStream : Bool)
  | exitResult (result : CommandResult)
deriving DecidableEq

/-- 1 if the action actually finalized, 0 for the early-return no-op. -/
def actionWeight : FinalizeAction → Nat
  | FinalizeAction.noop => 0
  | _ => 1

/-- Deliver one event to a context, accumulating how many times the
context has finalized. -/
def ctx_step (cancelled : Bool) (total : Nat) (p : RCContext × Nat) :
    CtxEvent → RCContext × Nat
  | CtxEvent.streamDone isErr =>
      let q := RCContext.mark_stream_done cancelled total p.1 isErr
      (q.1, p.2 + actionWeight q.2)
  | CtxEvent.exitResult r =>
      let q := RCContext.set_exit_result cancelled total p.1 r
      (q.1, p.2 + actionWeight q.2)

/-- Deliver a list of events to a context, counting finalizations. -/
def ctxRun (cancelled : Bool) (total : Nat) (c : RCContext)
    (es : List CtxEvent) : RCContext × Nat :=
  es.foldl (ctx_step cancelled total) (c, 0)

/-- Number of exit-result events in a schedule. -/
def exitCount (es : List CtxEvent) : Nat :=
  (es.filter fun e => match e with
    | CtxEvent.exitResult _ => true
    | _ => false).length

/-! ## Trace observations -/

/-- Number of completion-callback invocations with value `b` in a trace. -/
def callbackCount : List Effect → Bool → Nat
  | [], _ => 0
  | Effect.callbackInvoked x :: rest, b =>
      (if x = b then 1 else 0) + callbackCount rest b
  | _ :: rest, b => callbackCount rest b

/-- The step-status updates sent to the surface, in order. -/
def statusUpdates : List Effect → List (Nat × TaskStatus)
  | [] => []
  | Effect.statusUpdate i s :: rest => (i, s) :: statusUpdates rest
  | _ :: rest => statusUpdates rest

/-- The indices of the steps whose process was spawned, in order. -/
def spawnedIndices : List Effect → List Nat
  | [] => []
  | Effect.spawned i _ _ :: rest => i :: spawnedIndices rest
  | _ :: rest => spawnedIndices rest

/-- The schedule in which a step's three signals arrive with exit
result `r` — one of the six permutations of this list. -/
def triple (r : CommandResult) : List StepEvent :=
  [StepEvent.stdoutDone, StepEvent.stderrDone, StepEvent.exitResult r]

/-- A concrete environment for witnesses: no AUR helper configured or
installed, spawning always succeeds, a completion callback is present. -/
def env1 : Env :=
  { aurHelperPref := none, isExec := fun _ => false,
    spawnOk := fun _ => true, hasCallback := true }

/-- A concrete normal step for witnesses. -/
def step1 : CommandStep :=
  { command_type := CommandType.Normal, command := "echo", args := ["hi"],
    friendly_name := "Echo hi" }

/-- A concrete AUR-helper step for witnesses. -/
def aurStep : CommandStep :=
  { command_type := CommandType.Aur, command := "aur", args := ["-S", "pkg"],
    friendly_name := "Install AUR package" }

/-! ## Helper lemmas -/

theorem callbackCount_append (a b : List Effect) (x : Bool) :
    callbackCount (a ++ b) x = callbackCount a x + callbackCount b x := by
  induction a with
  | nil => simp [callbackCount]
  | cons e rest ih =>
      cases e <;> simp [callbackCount, ih, Nat.add_assoc]

theorem statusUpdates_append (a b : List Effect) :
    statusUpdates (a ++ b) = statusUpdates a ++ statusUpdates b := by
  induction a with
  | nil => simp [statusUpdates]
  | cons e rest ih => cases e <;> simp [statusUpdates, ih]

theorem spawnedIndices_append (a b : List Effect) :
    spawnedIndices (a ++ b) = spawnedIndices a ++ spawnedIndices b := by
  induction a with
  | nil => simp [spawnedIndices]
  | cons e rest ih => cases e <;> simp [spawnedIndices, ih]

theorem perm3_cases {α : Type} {l : List α} {a b c : α}
    (h : l.Perm [a, b, c]) :
    l = [a, b, c] ∨ l = [a, c, b] ∨ l = [b, a, c] ∨ l = [b, c, a] ∨
    l = [c, a, b] ∨ l = [c, b, a] := by
  have hlen : l.length = 3 := h.length_eq
  match l, hlen with
  | [x, y, z], _ =>
    have hx : x = a ∨ x = b ∨ x = c := by
      have hm := h.mem_iff.mp (show x ∈ [x, y, z] by simp)
      simpa using hm
    have pair : ∀ {u v w₁ w₂ : α}, ([u, v] : List α).Perm [w₁, w₂] →
        ([u, v] = [w₁, w₂] ∨ [u, v] = [w₂, w₁]) := by
      intro u v w₁ w₂ hp
      have hu : u = w₁ ∨ u = w₂ := by
        have hm := hp.mem_iff.mp (show u ∈ [u, v] by simp)
        simpa using hm
      rcases hu with h1 | h1
      · rw [h1] at hp
        have hv : v = w₂ := by simpa using List.perm_singleton.mp hp.cons_inv
        rw [h1, hv]
        simp
      · rw [h1] at hp
        have hp2 : ([w₂, v] : List α).Perm [w₂, w₁] :=
          hp.trans (List.Perm.swap w₂ w₁ [])
        have hv : v = w₁ := by simpa using List.perm_singleton.mp hp2.cons_inv
        rw [h1, hv]
        simp
    rcases hx with h1 | h1 | h1
    · rw [h1] at h ⊢
      have h2 : ([y, z] : List α).Perm [b, c] := h.cons_inv
      rcases pair h2 with h3 | h3 <;> simp_all
    · rw [h1] at h ⊢
      have h2 : ([y, z] : List α).Perm [a, c] :=
        (h.trans (List.Perm.swap b a [c])).cons_inv
      rcases pair h2 with h3 | h3 <;> simp_all
    · rw [h1] at h ⊢
      have hperm : ([a, b, c] : List α).Perm [c, a, b] := by
        refine List.Perm.trans (List.Perm.swap b a [c]) ?_
        refine List.Perm.trans ?_ (List.Perm.swap a c [b]).symm
        exact List.Perm.trans (List.Perm.swap a b [c])
          (List.Perm.cons a (List.Perm.swap c b []))
      have h2 : ([y, z] : List α).Perm [a, b] := (h.trans hperm).cons_inv
      rcases pair h2 with h3 | h3 <;> simp_all

theorem append_split3 {α : Type} {a b : List α} {x y z : α}
    (h : a ++ b = [x, y, z]) (hb : b ≠ []) :
    (a = [] ∧ b = [x, y, z]) ∨ (a = [x] ∧ b = [y, z]) ∨
    (a = [x, y] ∧ b = [z]) := by
  match a, h with
  | [], h => simp_all
  | [p], h => simp_all
  | [p, q], h => simp_all
  | [p, q, r], h =>
      exfalso
      apply hb
      have hl := congrArg List.length h
      simp at hl
      exact hl
  | p :: q :: r :: s :: rest, h =>
      exfalso
      have hl := congrArg List.length h
      simp at hl


theorem runEvents_triple (env : Env) (st : ExecState) (i : Nat) (r : CommandResult)
    (es : List StepEvent) (hphase : st.phase = Phase.inStep (freshCtx i))
    (hperm : es.Perm [StepEvent.stdoutDone, StepEvent.stderrDone, StepEvent.exitResult r]) :
    runEvents env st es =
      try_finalize env st
        { index := i, stdout_done := true, stderr_done := true, exit_result := some r } := by
  rcases perm3_cases hperm with h6 | h6 | h6 | h6 | h6 | h6 <;> subst h6 <;>
    simp [runEvents, handleEvent, try_finalize, hphase, freshCtx, List.foldl]

theorem runEvents_append (env : Env) (st : ExecState) (a b : List StepEvent) :
    runEvents env st (a ++ b) = runEvents env (runEvents env st a) b := by
  simp [runEvents, List.foldl_append]

theorem success_run_props (env : Env) (scheds : List (List StepEvent)) :
    ∀ (st : ExecState) (i : Nat),
    env.hasCallback = true → st.cancelled = false →
    i + scheds.length = st.commands.length →
    (∀ s ∈ scheds, s.Perm [StepEvent.stdoutDone, StepEvent.stderrDone,
        StepEvent.exitResult CommandResult.Success]) →
    (∀ j, i ≤ j → ∀ (hj : j < st.commands.length),
        ∃ pa, resolve_command env st.commands[j] = Except.ok pa) →
    (∀ j, env.spawnOk j = true) →
    ∀ fin, fin = runEvents env (execute_commands_sequence env st i) scheds.flatten →
    fin.phase = Phase.finished ∧ fin.actionRunning = false ∧
    callbackCount fin.trace true = callbackCount st.trace true + 1 ∧
    callbackCount fin.trace false = callbackCount st.trace false ∧
    statusUpdates fin.trace = statusUpdates st.trace
      ++ (List.range' i scheds.length).map (fun j => (j, TaskStatus.Success)) ∧
    spawnedIndices fin.trace = spawnedIndices st.trace ++ List.range' i scheds.length ∧
    Effect.showCompletion true "All operations completed successfully!" ∈ fin.trace := by
  induction scheds with
  | nil =>
      intro st i hcb hcanc hlen hperm hres hspawn fin hfin
      subst hfin
      have hni : ¬ (i < st.commands.length) := by simp at hlen; omega
      simp [runEvents, execute_commands_sequence, hcanc, hni, finalize_execution,
        invokeCallback, hcb, emit, callbackCount_append, statusUpdates_append,
        spawnedIndices_append, callbackCount, statusUpdates, spawnedIndices, List.range',
        List.foldl]
  | cons s rest ih =>
      intro st i hcb hcanc hlen hperm hres hspawn fin hfin
      have hlt : i < st.commands.length := by simp at hlen; omega
      obtain ⟨⟨p, a⟩, hokres⟩ := hres i le_rfl hlt
      have hdisp : execute_commands_sequence env st i =
          { st with
              currentProcess := true,
              phase := Phase.inStep (freshCtx i),
              trace := st.trace ++
                [Effect.progress (i + 1) st.commands.length,
                 Effect.setTitle (st.commands[i]).friendly_name,
                 Effect.output ("\n=== Step " ++ toString (i + 1) ++ "/"
                   ++ toString st.commands.length ++ ": "
                   ++ (st.commands[i]).friendly_name ++ " ===\n") false,
                 Effect.spawned i p a] } := by
        simp [execute_commands_sequence, hcanc, hlt, hokres, hspawn, emit]
      have hstep : runEvents env (execute_commands_sequence env st i) s =
          execute_commands_sequence env
            { st with
                currentProcess := false,
                phase := Phase.inStep
                  ({ index := i, stdout_done := true, stderr_done := true,
                     exit_result := none }),
                trace := (st.trace ++
                  [Effect.progress (i + 1) st.commands.length,
                   Effect.setTitle (st.commands[i]).friendly_name,
                   Effect.output ("\n=== Step " ++ toString (i + 1) ++ "/"
                     ++ toString st.commands.length ++ ": "
                     ++ (st.commands[i]).friendly_name ++ " ===\n") false,
                   Effect.spawned i p a]) ++
                  [Effect.statusUpdate i TaskStatus.Success,
                   Effect.output "✓ Step completed successfully\n" false] }
            (i + 1) := by
        rw [hdisp]
        rw [runEvents_triple env _ i CommandResult.Success s (by simp)
          (hperm s (List.mem_cons_self s rest))]
        simp [try_finalize, hcanc, emit, List.append_assoc]
      have hfin2 : fin = runEvents env (execute_commands_sequence env
          { st with
              currentProcess := false,
              phase := Phase.inStep
                ({ index := i, stdout_done := true, stderr_done := true,
                   exit_result := none }),
              trace := (st.trace ++
                [Effect.progress (i + 1) st.commands.length,
                 Effect.setTitle (st.commands[i]).friendly_name,
                 Effect.output ("\n=== Step " ++ toString (i + 1) ++ "/"
                   ++ toString st.commands.length ++ ": "
                   ++ (st.commands[i]).friendly_name ++ " ===\n") false,
                 Effect.spawned i p a]) ++
                [Effect.statusUpdate i TaskStatus.Success,
                 Effect.output "✓ Step completed successfully\n" false] }
          (i + 1)) rest.flatten := by
        rw [hfin]
        have : (s :: rest).flatten = s ++ rest.flatten := by simp
        rw [this, runEvents_append, hstep]
      obtain ⟨h1, h2, h3, h4, h5, h6, h7⟩ :=
        ih _ (i + 1) hcb (by simp [hcanc]) (by simp at hlen; simp; omega)
          (fun t ht => hperm t (List.mem_cons_of_mem s ht))
          (by
            intro j hle hj
            simp only at hj ⊢
            exact hres j (by omega) (by simpa using hj))
          hspawn fin hfin2
      simp only at h3 h4 h5 h6 h7
      refine ⟨h1, h2, ?_, ?_, ?_, ?_, h7⟩
      · rw [h3]
        simp [callbackCount_append, callbackCount]
      · rw [h4]
        simp [callbackCount_append, callbackCount]
      · rw [h5]
        simp [statusUpdates_append, statusUpdates, List.range'_succ, List.append_assoc]
      · rw [h6]
        simp [spawnedIndices_append, spawnedIndices, List.range'_succ, List.append_assoc]



theorem fail_run_props (env : Env) (pre : List (List StepEvent)) :
    ∀ (st : ExecState) (i : Nat) (sfail : List StepEvent) (code : Option Int),
    env.hasCallback = true → st.cancelled = false →
    i + pre.length < st.commands.length →
    (∀ s ∈ pre, s.Perm [StepEvent.stdoutDone, StepEvent.stderrDone,
        StepEvent.exitResult CommandResult.Success]) →
    sfail.Perm [StepEvent.stdoutDone, StepEvent.stderrDone,
        StepEvent.exitResult (CommandResult.Failure code)] →
    (∀ j, i ≤ j → ∀ (hj : j < st.commands.length),
        ∃ pa, resolve_command env st.commands[j] = Except.ok pa) →
    (∀ j, env.spawnOk j = true) →
    ∀ fin, fin = runEvents env (execute_commands_sequence env st i)
        (pre.flatten ++ sfail) →
    fin.phase = Phase.finished ∧ fin.actionRunning = false ∧
    callbackCount fin.trace true = callbackCount st.trace true ∧
    callbackCount fin.trace false = callbackCount st.trace false + 1 ∧
    statusUpdates fin.trace = statusUpdates st.trace
      ++ (List.range' i pre.length).map (fun j => (j, TaskStatus.Success))
      ++ [(i + pre.length, TaskStatus.Failed)] ∧
    spawnedIndices fin.trace = spawnedIndices st.trace ++ List.range' i (pre.length + 1) ∧
    Effect.showCompletion false ("Operation failed at step "
      ++ toString (i + pre.length + 1) ++ " of " ++ toString st.commands.length)
      ∈ fin.trace ∧
    (∀ c, code = some c → Effect.output
      ("✗ Command failed with exit code: " ++ toString c ++ "\n") true ∈ fin.trace) := by
  induction pre with
  | nil =>
      intro st i sfail code hcb hcanc hlen hperm hpermf hres hspawn fin hfin
      have hlt : i < st.commands.length := by simp at hlen; omega
      obtain ⟨⟨p, a⟩, hokres⟩ := hres i le_rfl hlt
      have hdisp : execute_commands_sequence env st i =
          { st with
              currentProcess := true,
              phase := Phase.inStep (freshCtx i),
              trace := st.trace ++
                [Effect.progress (i + 1) st.commands.length,
                 Effect.setTitle (st.commands[i]).friendly_name,
                 Effect.output ("\n=== Step " ++ toString (i + 1) ++ "/"
                   ++ toString st.commands.length ++ ": "
                   ++ (st.commands[i]).friendly_name ++ " ===\n") false,
                 Effect.spawned i p a] } := by
        simp [execute_commands_sequence, hcanc, hlt, hokres, hspawn, emit]
      rw [hfin, hdisp]
      simp only [List.flatten_nil, List.nil_append]
      rw [runEvents_triple env _ i (CommandResult.Failure code) sfail (by simp) hpermf]
      rcases code with _ | c <;>
        simp [try_finalize, finalize_execution, invokeCallback, emit, hcanc, hcb,
          callbackCount_append, callbackCount, statusUpdates_append, statusUpdates,
          spawnedIndices_append, spawnedIndices, List.range', List.append_assoc]
  | cons s rest ih =>
      intro st i sfail code hcb hcanc hlen hperm hpermf hres hspawn fin hfin
      have hlt : i < st.commands.length := by simp at hlen; omega
      obtain ⟨⟨p, a⟩, hokres⟩ := hres i le_rfl hlt
      have hdisp : execute_commands_sequence env st i =
          { st with
              currentProcess := true,
              phase := Phase.inStep (freshCtx i),
              trace := st.trace ++
                [Effect.progress (i + 1) st.commands.length,
                 Effect.setTitle (st.commands[i]).friendly_name,
                 Effect.output ("\n=== Step " ++ toString (i + 1) ++ "/"
                   ++ toString st.commands.length ++ ": "
                   ++ (st.commands[i]).friendly_name ++ " ===\n") false,
                 Effect.spawned i p a] } := by
        simp [execute_commands_sequence, hcanc, hlt, hokres, hspawn, emit]
      have hstep : runEvents env (execute_commands_sequence env st i) s =
          execute_commands_sequence env
            { st with
                currentProcess := false,
                phase := Phase.inStep
                  ({ index := i, stdout_done := true, stderr_done := true,
                     exit_result := none }),
                trace := (st.trace ++
                  [Effect.progress (i + 1) st.commands.length,
                   Effect.setTitle (st.commands[i]).friendly_name,
                   Effect.output ("\n=== Step " ++ toString (i + 1) ++ "/"
                     ++ toString st.commands.length ++ ": "
                     ++ (st.commands[i]).friendly_name ++ " ===\n") false,
                   Effect.spawned i p a]) ++
                  [Effect.statusUpdate i TaskStatus.Success,
                   Effect.output "✓ Step completed successfully\n" false] }
            (i + 1) := by
        rw [hdisp]
        rw [runEvents_triple env _ i CommandResult.Success s (by simp)
          (hperm s (List.mem_cons_self s rest))]
        simp [try_finalize, hcanc, emit, List.append_assoc]
      have hfin2 : fin = runEvents env (execute_commands_sequence env
          { st with
              currentProcess := false,
              phase := Phase.inStep
                ({ index := i, stdout_done := true, stderr_done := true,
                   exit_result := none }),
              trace := (st.trace ++
                [Effect.progress (i + 1) st.commands.length,
                 Effect.setTitle (st.commands[i]).friendly_name,
                 Effect.output ("\n=== Step " ++ toString (i + 1) ++ "/"
                   ++ toString st.commands.length ++ ": "
                   ++ (st.commands[i]).friendly_name ++ " ===\n") false,
                 Effect.spawned i p a]) ++
                [Effect.statusUpdate i TaskStatus.Success,
                 Effect.output "✓ Step completed successfully\n" false] }
          (i + 1)) (rest.flatten ++ sfail) := by
        rw [hfin]
        have hj : ((s :: rest).flatten ++ sfail) = s ++ (rest.flatten ++ sfail) := by
          simp
        rw [hj, runEvents_append, hstep]
      obtain ⟨h1, h2, h3, h4, h5, h6, h7, h8⟩ :=
        ih _ (i + 1) sfail code hcb (by simp [hcanc]) (by simp at hlen; simp; omega)
          (fun t ht => hperm t (List.mem_cons_of_mem s ht)) hpermf
          (by
            intro j hle hj
            simp only at hj ⊢
            exact hres j (by omega) (by simpa using hj))
          hspawn fin hfin2
      simp only at h3 h4 h5 h6 h7 h8
      have hidx : i + 1 + rest.length = i + (rest.length + 1) := by omega
      refine ⟨h1, h2, ?_, ?_, ?_, ?_, ?_, ?_⟩
      · rw [h3]
        simp [callbackCount_append, callbackCount]
      · rw [h4]
        simp [callbackCount_append, callbackCount]
      · rw [h5]
        simp [statusUpdates_append, statusUpdates, List.range'_succ, List.append_assoc,
          hidx]
      · rw [h6]
        simp [spawnedIndices_append, spawnedIndices, List.range'_succ, List.append_assoc]
      · have hidx2 : i + (s :: rest).length + 1 = i + 1 + rest.length + 1 := by
          simp; omega
        rw [hidx2]
        exact h7
      · intro c hc
        exact h8 c hc



theorem cancel_mid_step_props (env : Env) (st : ExecState) (i : Nat) (r : CommandResult)
    (a b : List StepEvent)
    (hcb : env.hasCallback = true)
    (hcanc : st.cancelled = false)
    (hproc : st.currentProcess = true)
    (hphase : st.phase = Phase.inStep (freshCtx i))
    (hsplit : (a ++ b).Perm [StepEvent.stdoutDone, StepEvent.stderrDone,
        StepEvent.exitResult r])
    (hb : b ≠ []) :
    ∀ fin, fin = runEvents env st (a ++ StepEvent.cancelClicked :: b) →
    fin.phase = Phase.finished ∧ fin.actionRunning = false ∧
    callbackCount fin.trace false = callbackCount st.trace false + 1 ∧
    callbackCount fin.trace true = callbackCount st.trace true ∧
    spawnedIndices fin.trace = spawnedIndices st.trace ∧
    Effect.showCompletion false "Operation cancelled" ∈ fin.trace ∧
    Effect.forceExit ∈ fin.trace := by
  rcases perm3_cases hsplit with h6 | h6 | h6 | h6 | h6 | h6 <;>
  rcases append_split3 h6 hb with ⟨ha, hbb⟩ | ⟨ha, hbb⟩ | ⟨ha, hbb⟩ <;>
  subst ha <;> subst hbb <;> intro fin hfin <;> subst hfin <;>
    simp [runEvents, handleEvent, cancel_clicked, try_finalize, hphase, hcanc, hproc,
      hcb, emit, invokeCallback, finalize_execution, freshCtx, List.foldl,
      callbackCount_append, callbackCount, spawnedIndices_append, spawnedIndices,
      List.append_assoc]

theorem exec_inv (env : Env) (st : ExecState) (i : Nat) :
    (execute_commands_sequence env st i).phase = Phase.finished →
    (execute_commands_sequence env st i).actionRunning = false := by
  simp only [execute_commands_sequence]
  split
  · intro _
    simp [finalize_execution, invokeCallback, emit, apply_ite]
  · split
    · split
      · intro _
        simp [finalize_execution, invokeCallback, emit, apply_ite]
      · split
        · intro h
          simp at h
        · intro _
          simp [finalize_execution, invokeCallback, emit, apply_ite]
    · intro _
      simp [finalize_execution, invokeCallback, emit, apply_ite]

theorem try_finalize_inv (env : Env) (st : ExecState) (ctx : StepCtx) :
    (try_finalize env st ctx).phase = Phase.finished →
    (try_finalize env st ctx).actionRunning = false := by
  simp only [try_finalize]
  split
  · split
    · intro h
      simp at h
    · split
      · intro _
        simp [finalize_execution, invokeCallback, emit, apply_ite]
      · split
        · intro h
          exact exec_inv env _ _ h
        · intro _
          simp [finalize_execution, invokeCallback, emit, apply_ite]
  · intro h
    simp at h

theorem handle_inv (env : Env) (st : ExecState) (e : StepEvent)
    (hinv : st.phase = Phase.finished → st.actionRunning = false) :
    (handleEvent env st e).phase = Phase.finished →
    (handleEvent env st e).actionRunning = false := by
  cases e with
  | cancelClicked =>
      simp only [handleEvent, cancel_clicked]
      intro h
      simp [emit, apply_ite] at h ⊢
      exact hinv h
  | stdoutDone =>
      simp only [handleEvent]
      cases hp : st.phase with
      | idle => exact hinv
      | finished => exact hinv
      | inStep ctx => exact try_finalize_inv env st _
  | stderrDone =>
      simp only [handleEvent]
      cases hp : st.phase with
      | idle => exact hinv
      | finished => exact hinv
      | inStep ctx => exact try_finalize_inv env st _
  | exitResult r =>
      simp only [handleEvent]
      cases hp : st.phase with
      | idle => exact hinv
      | finished => exact hinv
      | inStep ctx => exact try_finalize_inv env st _

theorem runEvents_inv (env : Env) (es : List StepEvent) :
    ∀ (st : ExecState),
    (st.phase = Phase.finished → st.actionRunning = false) →
    (runEvents env st es).phase = Phase.finished →
    (runEvents env st es).actionRunning = false := by
  induction es with
  | nil => intro st hinv; exact hinv
  | cons e rest ih =>
      intro st hinv
      have := ih (handleEvent env st e) (handle_inv env st e hinv)
      simpa [runEvents, List.foldl] using this



theorem exitCount_cons_stream (b : Bool) (rest : List CtxEvent) :
    exitCount (CtxEvent.streamDone b :: rest) = exitCount rest := by
  simp [exitCount]

theorem exitCount_cons_exit (r : CommandResult) (rest : List CtxEvent) :
    exitCount (CtxEvent.exitResult r :: rest) = exitCount rest + 1 := by
  simp [exitCount, List.filter]

theorem ctx_count_aux (cancelled : Bool) (total : Nat) :
    ∀ (es : List CtxEvent) (i : Nat) (s e : Bool) (x : Option CommandResult) (k : Nat),
    exitCount es + (if x.isSome = true then 1 else 0) ≤ 1 →
    (x.isSome = true → (s && e) = false) →
    (es.foldl (ctx_step cancelled total)
        ({ index := i, stdout_done := s, stderr_done := e, exit_result := x }, k)).2 =
      k + (if (s = true ∨ CtxEvent.streamDone false ∈ es) ∧
             (e = true ∨ CtxEvent.streamDone true ∈ es) ∧
             (x.isSome = true ∨ exitCount es = 1) then 1 else 0) := by
  intro es
  induction es with
  | nil =>
      intro i s e x k h1 h2
      rcases x with _ | r
      · simp [exitCount, List.foldl]
      · have h3 := h2 rfl
        cases s <;> cases e <;> simp_all [exitCount, List.foldl]
  | cons ev rest ih =>
      intro i s e x k h1 h2
      cases ev with
      | streamDone isErr =>
          rw [exitCount_cons_stream] at h1
          cases isErr
          case false =>
            rcases x with _ | r
            · have heq := ih i true e none k (by simpa using h1) (by simp)
              simp only [List.foldl, ctx_step, RCContext.mark_stream_done,
                RCContext.try_finalize, actionWeight] at heq ⊢
              simp [heq, exitCount_cons_stream, List.mem_cons]
            · cases e
              case true =>
                have hs : s = false := by
                  have := h2 rfl
                  cases s <;> simp_all
                subst hs
                have hrest0 : exitCount rest = 0 := by
                  simp at h1
                  omega
                have heq := ih i true true none (k + 1) (by simp [hrest0]) (by simp)
                simp only [List.foldl, ctx_step, RCContext.mark_stream_done,
                  RCContext.try_finalize, actionWeight] at heq ⊢
                rcases r with _ | code <;> cases cancelled <;>
                  simp [heq, hrest0, exitCount_cons_stream, List.mem_cons, actionWeight]
              case false =>
                have heq := ih i true false (some r) k (by simpa using h1) (by simp)
                simp only [List.foldl, ctx_step, RCContext.mark_stream_done,
                  RCContext.try_finalize, actionWeight] at heq ⊢
                simp [heq, exitCount_cons_stream, List.mem_cons]
          case true =>
            rcases x with _ | r
            · have heq := ih i s true none k (by simpa using h1) (by simp)
              simp only [List.foldl, ctx_step, RCContext.mark_stream_done,
                RCContext.try_finalize, actionWeight] at heq ⊢
              simp [heq, exitCount_cons_stream, List.mem_cons]
            · cases s
              case true =>
                have he2 : e = false := by
                  have := h2 rfl
                  cases e <;> simp_all
                subst he2
                have hrest0 : exitCount rest = 0 := by
                  simp at h1
                  omega
                have heq := ih i true true none (k + 1) (by simp [hrest0]) (by simp)
                simp only [List.foldl, ctx_step, RCContext.mark_stream_done,
                  RCContext.try_finalize, actionWeight] at heq ⊢
                rcases r with _ | code <;> cases cancelled <;>
                  simp [heq, hrest0, exitCount_cons_stream, List.mem_cons, actionWeight]
              case false =>
                have heq := ih i false true (some r) k (by simpa using h1) (by simp)
                simp only [List.foldl, ctx_step, RCContext.mark_stream_done,
                  RCContext.try_finalize, actionWeight] at heq ⊢
                simp [heq, exitCount_cons_stream, List.mem_cons]
      | exitResult r =>
          rw [exitCount_cons_exit] at h1
          have hx : x = none := by
            rcases x with _ | r2
            · rfl
            · exfalso
              simp at h1
          subst hx
          have hrest0 : exitCount rest = 0 := by
            simp at h1
            omega
          cases s <;> cases e
          case true.true =>
            have heq := ih i true true none (k + 1) (by simp [hrest0]) (by simp)
            simp only [List.foldl, ctx_step, RCContext.set_exit_result,
              RCContext.try_finalize, actionWeight] at heq ⊢
            rcases r with _ | code <;> cases cancelled <;>
              simp [heq, hrest0, exitCount_cons_exit, List.mem_cons, actionWeight]
          case true.false =>
            have heq := ih i true false (some r) k (by simp [hrest0]) (by simp)
            simp only [List.foldl, ctx_step, RCContext.set_exit_result,
              RCContext.try_finalize, actionWeight] at heq ⊢
            simp [heq, hrest0, exitCount_cons_exit, List.mem_cons]
          case false.true =>
            have heq := ih i false true (some r) k (by simp [hrest0]) (by simp)
            simp only [List.foldl, ctx_step, RCContext.set_exit_result,
              RCContext.try_finalize, actionWeight] at heq ⊢
            simp [heq, hrest0, exitCount_cons_exit, List.mem_cons]
          case false.false =>
            have heq := ih i false false (some r) k (by simp [hrest0]) (by simp)
            simp only [List.foldl, ctx_step, RCContext.set_exit_result,
              RCContext.try_finalize, actionWeight] at heq ⊢
            simp [heq, hrest0, exitCount_cons_exit, List.mem_cons]



/-- C1: for every non-empty step sequence in which every step's process exits
successfully (each step's two streams and exit result settle in any order),
the sequence executor invokes the completion callback exactly once, with
`true`: each success advances the index by one (steps are spawned in order
0, 1, …, n−1), and when the index reaches the length of the step list the
run finalizes as overall success, reports it, and calls the callback with
`true`. -/
theorem c1_all_success (env : Env) (commands : List CommandStep)
    (scheds : List (List StepEvent))
    (hcb : env.hasCallback = true)
    (_hne : commands ≠ [])
    (hlen : scheds.length = commands.length)
    (hperm : ∀ s ∈ scheds, s.Perm [StepEvent.stdoutDone, StepEvent.stderrDone,
        StepEvent.exitResult CommandResult.Success])
    (hres : ∀ j, ∀ (hj : j < commands.length),
        ∃ pa, resolve_command env commands[j] = Except.ok pa)
    (hspawn : ∀ j, env.spawnOk j = true) :
    ∀ fin, fin = runEvents env (execute_commands_sequence env (initState commands) 0)
        scheds.flatten →
    callbackCount fin.trace true = 1 ∧
    callbackCount fin.trace false = 0 ∧
    spawnedIndices fin.trace = List.range' 0 commands.length ∧
    fin.phase = Phase.finished ∧
    Effect.showCompletion true "All operations completed successfully!" ∈ fin.trace := by
  intro fin hfin
  obtain ⟨h1, h2, h3, h4, h5, h6, h7⟩ :=
    success_run_props env scheds (initState commands) 0 hcb rfl
      (by simp [initState]; omega)
      hperm
      (by
        intro j _ hj
        exact hres j (by simpa [initState] using hj))
      hspawn fin hfin
  simp only [initState, callbackCount, spawnedIndices] at h3 h4 h6
  refine ⟨h3, h4, ?_, h1, h7⟩
  rw [h6]
  simp [initState, hlen]

/-- Witness for C1 at a concrete input: one normal step, streams and exit
arriving in order, produces exactly one `callback(true)`. -/
theorem c1_all_success_witness :
    callbackCount (runEvents env1 (execute_commands_sequence env1 (initState [step1]) 0)
        ([[StepEvent.stdoutDone, StepEvent.stderrDone,
           StepEvent.exitResult CommandResult.Success]].flatten)).trace true = 1 :=
  (c1_all_success env1 [step1]
    [[StepEvent.stdoutDone, StepEvent.stderrDone,
      StepEvent.exitResult CommandResult.Success]]
    rfl (by simp) rfl
    (by
      intro s hs
      simp at hs
      subst hs
      exact List.Perm.refl _)
    (by
      intro j hj
      have hj0 : j = 0 := by simpa using hj
      subst hj0
      exact ⟨("echo", ["hi"]), rfl⟩)
    (fun _ => rfl) _ rfl).1

/-- C2: for every step sequence in which the first `f` steps succeed and
step `f` (0-indexed; step `f+1` in the spec's 1-indexed counting) is the
first step whose process fails, with no cancellation: steps `0..f-1` are
reported Success, step `f` is reported Failed, the run reports overall
failure with the message "Operation failed at step f+1 of n" (logging the
exit code when one is present), the callback fires exactly once with
`false`, and steps beyond `f` are never spawned. -/
theorem c2_first_failure (env : Env) (commands : List CommandStep)
    (pre : List (List StepEvent)) (sfail : List StepEvent) (code : Option Int)
    (hcb : env.hasCallback = true)
    (hk : pre.length < commands.length)
    (hperm : ∀ s ∈ pre, s.Perm [StepEvent.stdoutDone, StepEvent.stderrDone,
        StepEvent.exitResult CommandResult.Success])
    (hpermf : sfail.Perm [StepEvent.stdoutDone, StepEvent.stderrDone,
        StepEvent.exitResult (CommandResult.Failure code)])
    (hres : ∀ j, ∀ (hj : j < commands.length),
        ∃ pa, resolve_command env commands[j] = Except.ok pa)
    (hspawn : ∀ j, env.spawnOk j = true) :
    ∀ fin, fin = runEvents env (execute_commands_sequence env (initState commands) 0)
        (pre.flatten ++ sfail) →
    statusUpdates fin.trace =
      (List.range' 0 pre.length).map (fun j => (j, TaskStatus.Success))
        ++ [(pre.length, TaskStatus.Failed)] ∧
    spawnedIndices fin.trace = List.range' 0 (pre.length + 1) ∧
    Effect.showCompletion false ("Operation failed at step "
      ++ toString (pre.length + 1) ++ " of " ++ toString commands.length)
      ∈ fin.trace ∧
    callbackCount fin.trace false = 1 ∧
    callbackCount fin.trace true = 0 ∧
    fin.phase = Phase.finished ∧
    (∀ c, code = some c → Effect.output
      ("✗ Command failed with exit code: " ++ toString c ++ "\n") true ∈ fin.trace) := by
  intro fin hfin
  obtain ⟨h1, h2, h3, h4, h5, h6, h7, h8⟩ :=
    fail_run_props env pre (initState commands) 0 sfail code hcb rfl
      (by simpa [initState] using hk)
      hperm hpermf
      (by
        intro j _ hj
        exact hres j (by simpa [initState] using hj))
      hspawn fin hfin
  simp only [initState, callbackCount, statusUpdates, spawnedIndices,
    List.nil_append, Nat.zero_add] at h3 h4 h5 h6 h7
  exact ⟨h5, h6, h7, h4, h3, h1, h8⟩

/-- Witness for C2 at a concrete input: a two-step plan whose second step
fails with exit code 2 reports Success then Failed, the step-count failure
message, and exactly one `callback(false)`. -/
theorem c2_first_failure_witness :
    statusUpdates (runEvents env1
        (execute_commands_sequence env1 (initState [step1, step1]) 0)
        (([[StepEvent.stdoutDone, StepEvent.stderrDone,
            StepEvent.exitResult CommandResult.Success]]).flatten ++
          [StepEvent.stdoutDone, StepEvent.stderrDone,
           StepEvent.exitResult (CommandResult.Failure (some 2))])).trace =
      (List.range' 0 1).map (fun j => (j, TaskStatus.Success))
        ++ [(1, TaskStatus.Failed)] :=
  (c2_first_failure env1 [step1, step1]
    [[StepEvent.stdoutDone, StepEvent.stderrDone,
      StepEvent.exitResult CommandResult.Success]]
    [StepEvent.stdoutDone, StepEvent.stderrDone,
     StepEvent.exitResult (CommandResult.Failure (some 2))]
    (some 2) rfl (by simp)
    (by
      intro s hs
      simp at hs
      subst hs
      exact List.Perm.refl _)
    (List.Perm.refl _)
    (by
      intro j hj
      have hj2 : j < 2 := by simpa using hj
      have hj01 : j = 0 ∨ j = 1 := by omega
      rcases hj01 with hj0 | hj0 <;> subst hj0 <;> exact ⟨("echo", ["hi"]), rfl⟩)
    (fun _ => rfl) _ rfl).1



/-- C3: cancellation is honored at both check points.  (a) If the
cancellation flag is already true at entry to a step dispatch, no command
is spawned and the run finalizes as cancelled, invoking the callback once
with `false`.  (b) If the cancel signal arrives while step `k` is in
flight (before its three signals have all settled), then once the two
streams and the exit result settle — in any order, with any exit result
`r`, cancellation taking precedence over it — the run finalizes as
cancelled, the callback fires exactly once with `false`, and step `k+1`
is never spawned. -/
theorem c3_cancellation (env : Env) (st st2 : ExecState) (i i2 : Nat)
    (r : CommandResult) (a b : List StepEvent)
    (hcb : env.hasCallback = true) :
    (st.cancelled = true →
      (execute_commands_sequence env st i).phase = Phase.finished ∧
      (execute_commands_sequence env st i).actionRunning = false ∧
      callbackCount (execute_commands_sequence env st i).trace false
        = callbackCount st.trace false + 1 ∧
      callbackCount (execute_commands_sequence env st i).trace true
        = callbackCount st.trace true ∧
      spawnedIndices (execute_commands_sequence env st i).trace
        = spawnedIndices st.trace ∧
      Effect.showCompletion false "Operation cancelled"
        ∈ (execute_commands_sequence env st i).trace) ∧
    (st2.cancelled = false → st2.currentProcess = true →
     st2.phase = Phase.inStep (freshCtx i2) →
     (a ++ b).Perm [StepEvent.stdoutDone, StepEvent.stderrDone,
        StepEvent.exitResult r] →
     b ≠ [] →
     ∀ fin, fin = runEvents env st2 (a ++ StepEvent.cancelClicked :: b) →
     fin.phase = Phase.finished ∧ fin.actionRunning = false ∧
     callbackCount fin.trace false = callbackCount st2.trace false + 1 ∧
     callbackCount fin.trace true = callbackCount st2.trace true ∧
     spawnedIndices fin.trace = spawnedIndices st2.trace ∧
     Effect.showCompletion false "Operation cancelled" ∈ fin.trace) := by
  constructor
  · intro hc
    simp [execute_commands_sequence, hc, finalize_execution, invokeCallback, hcb,
      emit, callbackCount_append, callbackCount, spawnedIndices_append, spawnedIndices]
  · intro hcanc hproc hphase hsplit hb fin hfin
    obtain ⟨h1, h2, h3, h4, h5, h6, h7⟩ :=
      cancel_mid_step_props env st2 i2 r a b hcb hcanc hproc hphase hsplit hb fin hfin
    exact ⟨h1, h2, h3, h4, h5, h6⟩

/-- Witness for C3 at a concrete input: a cancel click delivered after
stdout EOF but before the remaining signals of the in-flight step leads to
one extra `callback(false)` and a cancelled completion. -/
theorem c3_cancellation_witness :
    callbackCount (runEvents env1
        (execute_commands_sequence env1 (initState [step1]) 0)
        ([StepEvent.stdoutDone] ++ StepEvent.cancelClicked ::
          [StepEvent.stderrDone, StepEvent.exitResult CommandResult.Success])).trace
        false =
      callbackCount (execute_commands_sequence env1 (initState [step1]) 0).trace
        false + 1 :=
  ((c3_cancellation env1 (initState [step1])
      (execute_commands_sequence env1 (initState [step1]) 0) 0 0
      CommandResult.Success [StepEvent.stdoutDone]
      [StepEvent.stderrDone, StepEvent.exitResult CommandResult.Success] rfl).2
    (by decide) (by decide) (by decide) (by decide) (by simp) _ rfl).2.2.1

/-- C4 counterexample: the claim that a duplicate exit result delivered to
an already-finalized step context is a no-op is false.  Delivering the
three signals finalizes the context once (action `advance 1`), leaving it
with both stream flags set and the exit result consumed; delivering a
duplicate exit result to that finalized context triggers finalization — a
second `advance 1` — rather than being a no-op. -/
theorem c4_counterexample :
    ctxRun false 1
        { index := 0, stdout_done := false, stderr_done := false, exit_result := none }
        [CtxEvent.streamDone false, CtxEvent.streamDone true,
         CtxEvent.exitResult CommandResult.Success] =
      ({ index := 0, stdout_done := true, stderr_done := true, exit_result := none }, 1) ∧
    (RCContext.set_exit_result false 1
        { index := 0, stdout_done := true, stderr_done := true, exit_result := none }
        CommandResult.Success).2 = FinalizeAction.advance 1 := by
  decide

/-- C4 (amended): finalization of a step context fires only when the
stdout-done flag, the stderr-done flag, and a recorded exit result are all
present, and — provided the exit result is delivered at most once, as the
process layer guarantees — it fires exactly once: extra stream EOF or
stream-error events, before or after finalization, are no-ops.  (A
duplicate exit result, which the runner never produces, would re-trigger
finalization; see the counterexample.) -/
theorem c4_amended (cancelled : Bool) (total i : Nat) (es : List CtxEvent)
    (h : exitCount es ≤ 1) :
    (ctxRun cancelled total
        { index := i, stdout_done := false, stderr_done := false,
          exit_result := none } es).2 =
      if (CtxEvent.streamDone false ∈ es ∧ CtxEvent.streamDone true ∈ es ∧
          exitCount es = 1) then 1 else 0 := by
  have haux := ctx_count_aux cancelled total es i false false none 0
    (by simpa using h) (by simp)
  simpa [ctxRun] using haux

/-- Witness for C4 (amended) at a concrete input: one exit result, both
stream EOFs and one extra stream EOF produce exactly one finalization. -/
theorem c4_amended_witness :
    (ctxRun false 1
        { index := 0, stdout_done := false, stderr_done := false,
          exit_result := none }
        [CtxEvent.streamDone false, CtxEvent.exitResult CommandResult.Success,
         CtxEvent.streamDone true, CtxEvent.streamDone true]).2 =
      if (CtxEvent.streamDone false ∈
            [CtxEvent.streamDone false, CtxEvent.exitResult CommandResult.Success,
             CtxEvent.streamDone true, CtxEvent.streamDone true] ∧
          CtxEvent.streamDone true ∈
            [CtxEvent.streamDone false, CtxEvent.exitResult CommandResult.Success,
             CtxEvent.streamDone true, CtxEvent.streamDone true] ∧
          exitCount
            [CtxEvent.streamDone false, CtxEvent.exitResult CommandResult.Success,
             CtxEvent.streamDone true, CtxEvent.streamDone true] = 1)
      then 1 else 0 :=
  c4_amended false 1 0
    [CtxEvent.streamDone false, CtxEvent.exitResult CommandResult.Success,
     CtxEvent.streamDone true, CtxEvent.streamDone true] (by decide)

/-- C5 counterexample: the claim that each step's status transitions
Pending → Running → Success via the executor's status-update calls is
false.  In a run of one step whose process succeeds, the complete
sequence of status updates the executor sends to the surface is the
single update `(0, Success)`: no Running (or Pending) update is ever
issued. -/
theorem c5_counterexample :
    statusUpdates (runEvents env1
        (execute_commands_sequence env1 (initState [step1]) 0)
        (triple CommandResult.Success)).trace = [(0, TaskStatus.Success)] := by
  decide

/-- C5 (amended): the executor updates each started step's status exactly
once, at that step's finalization — to Success when the step's process
succeeds and to Failed when it fails — and never issues Pending or
Running updates (Pending is only the step's initial state in the UI). -/
theorem c5_amended (env : Env) (commands : List CommandStep)
    (scheds pre : List (List StepEvent)) (sfail : List StepEvent) (code : Option Int)
    (hcb : env.hasCallback = true)
    (hres : ∀ j, ∀ (hj : j < commands.length),
        ∃ pa, resolve_command env commands[j] = Except.ok pa)
    (hspawn : ∀ j, env.spawnOk j = true) :
    (scheds.length = commands.length →
     (∀ s ∈ scheds, s.Perm [StepEvent.stdoutDone, StepEvent.stderrDone,
        StepEvent.exitResult CommandResult.Success]) →
     ∀ fin, fin = runEvents env (execute_commands_sequence env (initState commands) 0)
        scheds.flatten →
     statusUpdates fin.trace =
       (List.range' 0 commands.length).map (fun j => (j, TaskStatus.Success))) ∧
    (pre.length < commands.length →
     (∀ s ∈ pre, s.Perm [StepEvent.stdoutDone, StepEvent.stderrDone,
        StepEvent.exitResult CommandResult.Success]) →
     sfail.Perm [StepEvent.stdoutDone, StepEvent.stderrDone,
        StepEvent.exitResult (CommandResult.Failure code)] →
     ∀ fin, fin = runEvents env (execute_commands_sequence env (initState commands) 0)
        (pre.flatten ++ sfail) →
     statusUpdates fin.trace =
       (List.range' 0 pre.length).map (fun j => (j, TaskStatus.Success))
         ++ [(pre.length, TaskStatus.Failed)]) := by
  constructor
  · intro hlen hperm fin hfin
    obtain ⟨h1, h2, h3, h4, h5, h6, h7⟩ :=
      success_run_props env scheds (initState commands) 0 hcb rfl
        (by simp [initState]; omega)
        hperm
        (by
          intro j _ hj
          exact hres j (by simpa [initState] using hj))
        hspawn fin hfin
    simp only [initState, statusUpdates] at h5
    rw [h5]
    simp [hlen]
  · intro hk hperm hpermf fin hfin
    obtain ⟨h1, h2, h3, h4, h5, h6, h7, h8⟩ :=
      fail_run_props env pre (initState commands) 0 sfail code hcb rfl
        (by simpa [initState] using hk)
        hperm hpermf
        (by
          intro j _ hj
          exact hres j (by simpa [initState] using hj))
        hspawn fin hfin
    simp only [initState, statusUpdates, List.nil_append, Nat.zero_add] at h5
    exact h5

/-- Witness for C5 (amended) at a concrete input: the one-step successful
run's status updates are exactly `[(0, Success)]`. -/
theorem c5_amended_witness :
    statusUpdates (runEvents env1
        (execute_commands_sequence env1 (initState [step1]) 0)
        ([[StepEvent.stdoutDone, StepEvent.stderrDone,
           StepEvent.exitResult CommandResult.Success]].flatten)).trace =
      (List.range' 0 [step1].length).map (fun j => (j, TaskStatus.Success)) :=
  ((c5_amended env1 [step1]
    [[StepEvent.stdoutDone, StepEvent.stderrDone,
      StepEvent.exitResult CommandResult.Success]]
    [] [] none rfl
    (by
      intro j hj
      have hj0 : j = 0 := by simpa using hj
      subst hj0
      exact ⟨("echo", ["hi"]), rfl⟩)
    (fun _ => rfl)).1 rfl
    (by
      intro s hs
      simp at hs
      subst hs
      exact List.Perm.refl _)
    _ rfl)

/-- C6 counterexample: the claim that the progress surface's close/dismiss
signal invokes the completion callback with `false` (and that every
terminal outcome produces the callback exactly once) is false for the
close button: after a one-step successful run (one `callback(true)`),
clicking the close button runs the window's close-request handler (one
`callback(false)`) and then the button's own handler, which invokes
`callback(true)` — so the dismissal reports success, and the run as a
whole sees two `callback(true)` invocations and one `callback(false)`. -/
theorem c6_counterexample :
    callbackCount (close_button_clicked env1 (runEvents env1
        (execute_commands_sequence env1 (initState [step1]) 0)
        (triple CommandResult.Success))).trace true = 2 ∧
    callbackCount (close_button_clicked env1 (runEvents env1
        (execute_commands_sequence env1 (initState [step1]) 0)
        (triple CommandResult.Success))).trace false = 1 := by
  decide

/-- C6 (amended): the window's close-request handler clears the
process-wide running flag and invokes the completion callback exactly once
with `false`; the close button's own clicked handler, after triggering
that close-request path, additionally invokes the callback with `true` —
so a close-button dismissal produces one `false` and one `true`
invocation rather than a single `false`. -/
theorem c6_amended (env : Env) (st : ExecState) (hcb : env.hasCallback = true) :
    (close_request_handler env st).actionRunning = false ∧
    callbackCount (close_request_handler env st).trace false
      = callbackCount st.trace false + 1 ∧
    callbackCount (close_request_handler env st).trace true
      = callbackCount st.trace true ∧
    callbackCount (close_button_clicked env st).trace true
      = callbackCount st.trace true + 1 ∧
    callbackCount (close_button_clicked env st).trace false
      = callbackCount st.trace false + 1 := by
  by_cases hp : st.currentProcess <;>
    simp [close_request_handler, close_button_clicked, invokeCallback, hcb, emit, hp,
      callbackCount_append, callbackCount]

/-- Witness for C6 (amended) at a concrete input. -/
theorem c6_amended_witness :
    (close_request_handler env1 (initState [step1])).actionRunning = false ∧
    callbackCount (close_request_handler env1 (initState [step1])).trace false
      = callbackCount (initState [step1]).trace false + 1 :=
  ⟨(c6_amended env1 (initState [step1]) rfl).1,
   (c6_amended env1 (initState [step1]) rfl).2.1⟩

/-- C7: resolution of an AUR-typed step uses the configured helper
preference first, then falls back to probing for `paru` then `yay` (first
found wins); if neither exists, resolution fails with the helper-not-found
error, and dispatching such a step spawns no process and finalizes the run
as failed with one `callback(false)`; when a helper resolves, the
invocation is the helper binary with argv `["--sudo", "pkexec"]` followed
by the step's original arguments. -/
theorem c7_aur_resolution (env : Env) (cmd : CommandStep) (st : ExecState) (i : Nat)
    (h : String) (hty : cmd.command_type = CommandType.Aur) :
    (env.aurHelperPref = some h →
      resolve_command env cmd = Except.ok (h, "--sudo" :: "pkexec" :: cmd.args)) ∧
    (env.aurHelperPref = none → env.isExec "paru" = true →
      resolve_command env cmd = Except.ok ("paru", "--sudo" :: "pkexec" :: cmd.args)) ∧
    (env.aurHelperPref = none → env.isExec "paru" = false → env.isExec "yay" = true →
      resolve_command env cmd = Except.ok ("yay", "--sudo" :: "pkexec" :: cmd.args)) ∧
    (env.aurHelperPref = none → env.isExec "paru" = false → env.isExec "yay" = false →
      resolve_command env cmd
        = Except.error "AUR helper not initialized (paru or yay required).") ∧
    (env.aurHelperPref = none → env.isExec "paru" = false → env.isExec "yay" = false →
      env.hasCallback = true → st.cancelled = false →
      ∀ (hj : i < st.commands.length), st.commands[i] = cmd →
      spawnedIndices (execute_commands_sequence env st i).trace
        = spawnedIndices st.trace ∧
      (execute_commands_sequence env st i).phase = Phase.finished ∧
      callbackCount (execute_commands_sequence env st i).trace false
        = callbackCount st.trace false + 1 ∧
      Effect.showCompletion false "Failed to prepare command"
        ∈ (execute_commands_sequence env st i).trace) := by
  refine ⟨?_, ?_, ?_, ?_, ?_⟩
  · intro hp
    simp [resolve_command, aur_helper, hty, hp, Option.orElse]
  · intro hp hparu
    simp [resolve_command, aur_helper, detect_aur_helper, PRIORITY, hty, hp, hparu,
      Option.orElse, List.find?]
  · intro hp hparu hyay
    simp [resolve_command, aur_helper, detect_aur_helper, PRIORITY, hty, hp, hparu,
      hyay, Option.orElse, List.find?]
  · intro hp hparu hyay
    simp [resolve_command, aur_helper, detect_aur_helper, PRIORITY, hty, hp, hparu,
      hyay, Option.orElse, List.find?]
  · intro hp hparu hyay hcb hcanc hj hcmd
    have herr : resolve_command env cmd
        = Except.error "AUR helper not initialized (paru or yay required)." := by
      simp [resolve_command, aur_helper, detect_aur_helper, PRIORITY, hty, hp, hparu,
        hyay, Option.orElse, List.find?]
    simp [execute_commands_sequence, hcanc, hj, hcmd, herr, emit, finalize_execution,
      invokeCallback, hcb, spawnedIndices_append, spawnedIndices,
      callbackCount_append, callbackCount]

/-- Witness for C7 at a concrete input: with no preference and no helper
executable, an AUR step fails to resolve and its dispatch spawns
nothing. -/
theorem c7_aur_resolution_witness :
    resolve_command env1 aurStep
      = Except.error "AUR helper not initialized (paru or yay required)." ∧
    spawnedIndices (execute_commands_sequence env1 (initState [aurStep]) 0).trace
      = spawnedIndices (initState [aurStep]).trace :=
  ⟨(c7_aur_resolution env1 aurStep (initState [aurStep]) 0 "paru" rfl).2.2.2.1
      rfl rfl rfl,
   ((c7_aur_resolution env1 aurStep (initState [aurStep]) 0 "paru" rfl).2.2.2.2
      rfl rfl rfl rfl rfl (by decide) (by decide)).1⟩

/-- C8: resolution of a Normal-typed step returns the step's program and
arguments unchanged, and resolution of a Privileged-typed step returns
"pkexec" as the executable with argv = original program followed by the
original arguments; in both cases resolution succeeds. -/
theorem c8_normal_privileged (env : Env) (cmd : CommandStep) :
    (cmd.command_type = CommandType.Normal →
      resolve_command env cmd = Except.ok (cmd.command, cmd.args)) ∧
    (cmd.command_type = CommandType.Privileged →
      resolve_command env cmd = Except.ok ("pkexec", cmd.command :: cmd.args)) := by
  constructor <;> intro hty <;> simp [resolve_command, hty]

/-- Witness for C8 at a concrete input. -/
theorem c8_normal_privileged_witness :
    resolve_command env1 step1 = Except.ok (step1.command, step1.args) :=
  (c8_normal_privileged env1 step1).1 rfl

/-- C9: the process-wide running flag gates runs — a request to start a
run of a non-empty command list while the flag is set is rejected without
queueing — and the flag is false after every terminal outcome: any event
schedule that drives a dispatched run to the finished phase leaves the
flag cleared, and the close-request handler clears it as well. -/
theorem c9_running_flag (env : Env) (commands : List CommandStep) (st : ExecState)
    (i : Nat) (es : List StepEvent) (hne : commands ≠ []) :
    run_commands_with_progress env true commands = RunStart.rejectedRunning ∧
    ((runEvents env (execute_commands_sequence env st i) es).phase = Phase.finished →
      (runEvents env (execute_commands_sequence env st i) es).actionRunning = false) ∧
    (close_request_handler env st).actionRunning = false := by
  refine ⟨?_, ?_, ?_⟩
  · simp [run_commands_with_progress, hne]
  · exact runEvents_inv env es _ (exec_inv env st i)
  · by_cases hp : st.currentProcess <;> by_cases hcb : env.hasCallback <;>
      simp [close_request_handler, invokeCallback, emit, hp, hcb]

/-- Witness for C9 at a concrete input: a second run is rejected while the
flag is set, and a finished one-step run leaves the flag cleared. -/
theorem c9_running_flag_witness :
    run_commands_with_progress env1 true [step1] = RunStart.rejectedRunning ∧
    ((runEvents env1 (execute_commands_sequence env1 (initState [step1]) 0)
        (triple CommandResult.Success)).phase = Phase.finished →
      (runEvents env1 (execute_commands_sequence env1 (initState [step1]) 0)
        (triple CommandResult.Success)).actionRunning = false) :=
  ⟨(c9_running_flag env1 [step1] (initState [step1]) 0 (triple CommandResult.Success)
      (by simp)).1,
   (c9_running_flag env1 [step1] (initState [step1]) 0 (triple CommandResult.Success)
      (by simp)).2.1⟩

/-- C10: calling the top-level entry point with an empty command list
returns immediately as rejected — no dialog, no callback invocation, no
setting of the running flag — unlike the in-run index-past-end case,
which finalizes as overall success and invokes the callback once with
`true`. -/
theorem c10_empty_commands (env : Env) (running : Bool)
    (hcb : env.hasCallback = true) :
    run_commands_with_progress env running [] = RunStart.rejectedEmpty ∧
    callbackCount (execute_commands_sequence env (initState []) 0).trace true = 1 ∧
    callbackCount (execute_commands_sequence env (initState []) 0).trace false = 0 ∧
    (execute_commands_sequence env (initState []) 0).phase = Phase.finished ∧
    Effect.showCompletion true "All operations completed successfully!"
      ∈ (execute_commands_sequence env (initState []) 0).trace := by
  refine ⟨rfl, ?_, ?_, ?_, ?_⟩ <;>
    simp [execute_commands_sequence, initState, finalize_execution, invokeCallback,
      hcb, emit, callbackCount]

/-- Witness for C10 at a concrete input. -/
theorem c10_empty_commands_witness :
    run_commands_with_progress env1 true [] = RunStart.rejectedEmpty :=
  (c10_empty_commands env1 true rfl).1


end XeroToolkit
